import Mathlib

/-!
Verification development for the two-pass 6502 assembler backend
(the generator module of the repository: symbol tables, expression
resolver, directive processor, instruction encoder, two-pass driver and
debug-symbol exporter).

The JavaScript module is embedded shallowly:
* JS objects used as string-keyed maps become association lists with
  insert-or-update semantics preserving insertion order (matching JS
  for-in enumeration order for identifier keys);
* the module-level mutable variables (globalEnv, labels, PC, PCSet,
  enumSaveAdr, pass, localLabels, currentLabel) become an explicit
  context record threaded through the functions;
* JS numbers are Int (all arithmetic in the source is integer
  arithmetic on addresses and bytes; the bitwise operators are modelled
  below, faithful for operands of magnitude below 2 to the 31);
* thrown JS exceptions (the explicit duplicate-label Error, the
  RangeError from a negative array length, the TypeError from calling
  toLowerCase on a non-string) become an Except error type;
* the JS null value that the source stores into byte arrays as a
  placeholder, and the strings and expression objects it can also leak
  there, are kept as a value type RVal for output cells.
-/

/-- Error conditions the source can raise while assembling: the explicit
duplicate-label throw, the JS RangeError from constructing an array of
negative (or NaN) length, and the JS TypeError from calling toLowerCase
on a non-string operand. -/
inductive AsmError where
  | duplicateLabel (name : String)
  | rangeError
  | typeError
deriving DecidableEq, Repr

/-- JS bitwise mask, the source writes v & 0xFF. Faithful to JS for
operands of magnitude below 2 to the 31 (Int.emod is nonnegative for a
positive modulus, like the low byte of the 32-bit two-complement
representation JS uses). -/
def jsAnd255 (v : Int) : Int := v % 256

/-- JS (v >> 8) & 0xFF: the sign-propagating right shift is flooring
division by 256. -/
def jsShr8And255 (v : Int) : Int := (Int.fdiv v 256) % 256

/-- Lowercasing, s.toLowerCase() of JS (character by character, which is
what the kernel can evaluate). -/
def strToLower (s : String) : String := String.mk (s.data.map Char.toLower)

/-- Uppercasing, s.toUpperCase() of JS. -/
def strToUpper (s : String) : String := String.mk (s.data.map Char.toUpper)

/-- Prefix test on strings (character by character). -/
def strStartsWith (s p : String) : Bool := p.data.isPrefixOf s.data

/-- Suffix test on strings (character by character). -/
def strEndsWith (s p : String) : Bool := p.data.isSuffixOf s.data

/-- Lookup in a JS object used as a map (Object.hasOwn / property read). -/
def hasKey {α : Type} (m : List (String × α)) (k : String) : Bool :=
  (m.lookup k).isSome

/-- Property write on a JS object used as a map: updates an existing key
in place, otherwise appends, preserving JS insertion-ordered for-in
enumeration. -/
def setKey {α : Type} : List (String × α) → String → α → List (String × α)
  | [], k, v => [(k, v)]
  | (k', v') :: rest, k, v =>
      if k' = k then (k, v) :: rest else (k', v') :: setKey rest k v

/-- Side of a binary expression, or base of an indexed operand: the
parser emits a literal number or a symbol name there (the backend
supports a single binary plus, see the spec non-goals). -/
inductive SArg where
  | num (n : Int)
  | str (s : String)
deriving DecidableEq, Repr

/-- Argument of a statement as the parser produces it: literal number,
name, two-element indexed pair [base, register], or a binary expression
object with fields left, operator, right. -/
inductive Arg where
  | num (n : Int)
  | str (s : String)
  | pair (base : SArg) (reg : String)
  | expr (left : SArg) (op : String) (right : SArg)
deriving DecidableEq, Repr

/-- Value a resolution step can produce, i.e. the JS values resolveArg
returns: a number, a string (unresolved name or literal), the expression
object returned unchanged, the JS null for a null argument, and JS
undefined for an array argument (which falls through every typeof test
in resolveArg). pairv covers a raw array stored in the constant map. -/
inductive RVal where
  | num (n : Int)
  | str (s : String)
  | exprv (left : SArg) (op : String) (right : SArg)
  | pairv (base : SArg) (reg : String)
  | nullv
  | undefv
deriving DecidableEq, Repr

/-- View of a raw stored Arg (the constant map stores the raw right-hand
side of a symbol definition) as the JS value resolveArg would return. -/
def argToRVal : Arg → RVal
  | .num n => .num n
  | .str s => .str s
  | .pair b r => .pairv b r
  | .expr l op r => .exprv l op r

/-- Instruction node fields consumed by the encoder: the mnemonic, the
syntactic mode tag the parser attaches (immediate, indirect, indirectX,
indirectY) and the argument. -/
structure Instr where
  opcode : String
  mode : Option String
  arg : Option Arg
deriving DecidableEq, Repr

/-- Statement, the tagged variant the parser produces: label,
symbol definition (an expression with operator =), directive with its
argument list, or instruction. -/
inductive Stmt where
  | label (name : String)
  | symbolDef (left : String) (right : Arg)
  | directive (name : String) (args : List Arg)
  | instruction (ins : Instr)
deriving DecidableEq, Repr

/-- Assembly context: the module-level mutable state of the source
(globalEnv, labels, localLabels, currentLabel, PC, PCSet, enumSaveAdr,
pass) made explicit. currentLabel is a String with sentinel value
"null": JS coerces the initial null to the property key "null" when it
is used to index localLabels, and this model reproduces that. -/
structure Ctx where
  globalEnv : List (String × Arg)
  labels : List (String × Int)
  localLabels : List (String × List (String × Int))
  currentLabel : String
  PC : Int
  PCSet : Bool
  enumSaveAdr : Int
  pass : Nat
deriving DecidableEq, Repr

/-- Function resolveLabel of the source, on a name: if the name starts
with the local marker and the current scope has a (possibly empty) local
map, look it up there, else look it up in the global labels; an
unresolved name is returned unchanged. -/
def resolveLabelStr (ctx : Ctx) (s : String) : RVal :=
  if strStartsWith s "@" && hasKey ctx.localLabels ctx.currentLabel then
    match (ctx.localLabels.lookup ctx.currentLabel).bind (fun m => m.lookup s) with
    | some v => .num v
    | none => .str s
  else
    match ctx.labels.lookup s with
    | some v => .num v
    | none => .str s

/-- Function resolveLabel applied to a side of a binary expression: a
number passes through, a name is looked up (result is a number or the
original name). -/
def resolveSide (ctx : Ctx) : SArg → SArg
  | .num n => .num n
  | .str s =>
      match resolveLabelStr ctx s with
      | .num v => .num v
      | _ => .str s

/-- Function evaluateExpression of the source: resolve both sides with
resolveLabel; if either side is still a string return the expression
node unchanged; else apply the operator when it is plus, otherwise
return the node unchanged. -/
def evaluateExpression (ctx : Ctx) (l : SArg) (op : String) (r : SArg) : RVal :=
  match resolveSide ctx l, resolveSide ctx r with
  | .str _, _ => .exprv l op r
  | .num _, .str _ => .exprv l op r
  | .num a, .num b => if op = "+" then .num (a + b) else .exprv l op r

/-- Function resolveArg of the source: null returns null; a string is
looked up in the constant map (returning the raw stored value) else via
resolveLabel; a non-array object is an expression and is evaluated; a
number returns itself; an array matches no typeof test and the function
returns undefined. -/
def resolveArg (ctx : Ctx) : Option Arg → RVal
  | none => .nullv
  | some (.str s) =>
      match ctx.globalEnv.lookup s with
      | some raw => argToRVal raw
      | none => resolveLabelStr ctx s
  | some (.expr l op r) => evaluateExpression ctx l op r
  | some (.num n) => .num n
  | some (.pair _ _) => .undefv

/-- JS truth of (v >= 0 && v < 256) for a resolveArg result: null
coerces to 0 and satisfies it; strings (identifier names), expression
objects, arrays and undefined compare as NaN and fail it. -/
def rvalInByteRange : RVal → Bool
  | .num v => decide (0 ≤ v ∧ v < 256)
  | .nullv => true
  | _ => false

/-- JS coercion for (v & 0xFF) applied to a resolveArg result: null
coerces to 0; identifier strings, expression objects, arrays and
undefined coerce to NaN whose masked value is 0. -/
def jsToUint8 : RVal → Int
  | .num v => jsAnd255 v
  | _ => 0

/-- JS coercion for ((v >> 8) & 0xFF) applied to a resolveArg result. -/
def jsHiUint8 : RVal → Int
  | .num v => jsShr8And255 v
  | _ => 0

/-- Predicate isZeropage of the source: the resolved argument satisfies
the JS test value >= 0 && value < 256 (so a null argument passes, by JS
null-to-0 coercion). -/
def isZeropage (ctx : Ctx) (ins : Instr) : Bool :=
  rvalInByteRange (resolveArg ctx ins.arg)

/-- Predicate isImmediate of the source. -/
def isImmediate (ins : Instr) : Bool :=
  ins.mode = some "immediate"

/-- Predicate isIndexed of the source: the argument is a two-element
array whose second element is the x or y register name. -/
def isIndexed (ins : Instr) : Bool :=
  match ins.arg with
  | some (.pair _ r) => r = "x" || r = "y"
  | _ => false

/-- Predicate isIndirect of the source. -/
def isIndirect (ins : Instr) : Bool :=
  ins.mode = some "indirect"

/-- Predicate isIndirectY of the source. -/
def isIndirectY (ins : Instr) : Bool :=
  ins.mode = some "indirectY"

/-- Predicate isIndirectX of the source. -/
def isIndirectX (ins : Instr) : Bool :=
  ins.mode = some "indirectX"

/-- Predicate isAbsolute of the source: false for syntactic indirect
mode; JSR and JMP are always absolute; otherwise the resolved value must
be a number exceeding 255. -/
def isAbsolute (ctx : Ctx) (ins : Instr) : Bool :=
  if ins.mode = some "indirect" then false
  else if strToUpper ins.opcode = "JSR" || strToUpper ins.opcode = "JMP" then true
  else
    match resolveArg ctx ins.arg with
    | .num v => decide (255 < v)
    | _ => false

/-- Predicate isImplied of the source: the accumulator form of a shift
(mnemonic asl with string argument a) is implied, else an instruction is
implied exactly when its argument is null. Calling toLowerCase on a
non-null non-string argument of an asl instruction is a JS TypeError. -/
def isImpliedE (ins : Instr) : Except AsmError Bool :=
  if strToLower ins.opcode = "asl" then
    match ins.arg with
    | none => .ok true
    | some (.str s) => .ok (strToLower s = "a")
    | some _ => .error .typeError
  else
    .ok (ins.arg = none)

/-- Predicate isBranch of the source: the eight relative-branch
mnemonics. -/
def isBranch (ins : Instr) : Bool :=
  ["bpl", "bmi", "bvc", "bvs", "bcc", "bcs", "bne", "beq"].contains
    (strToLower ins.opcode)

/-- Candidate predicates of generateInstruction in source order, paired
with the mode name each one assigns. The only predicate that can throw
is isImplied (all predicates are pure, so hoisting its possible
TypeError preserves the JS evaluation order). -/
def modeCandidates (ctx : Ctx) (ins : Instr) :
    Except AsmError (List (Bool × String)) := do
  let impl ← isImpliedE ins
  .ok [(isZeropage ctx ins, "zeropage"),
       (isImmediate ins, "immediate"),
       (isIndexed ins, "indexed"),
       (isIndirect ins, "indirect"),
       (isAbsolute ctx ins, "absolute"),
       (isIndirectY ins, "indirectY"),
       (isIndirectX ins, "indirectX"),
       (impl, "implied"),
       (isBranch ins, "branch")]

/-- Mode selection of generateInstruction: the sequence of if statements
that each overwrite the mode variable on a positive test, i.e. a left
fold that replaces the accumulator at every positive candidate. -/
def selectMode (ctx : Ctx) (ins : Instr) : Except AsmError (Option String) := do
  let cands ← modeCandidates ctx ins
  .ok (cands.foldl (fun acc p => if p.1 then some p.2 else acc) none)

/-- Row of the external opcode table: the mnemonic followed by the byte
value for each addressing-mode column, in the column order the source
indexes (1 immediate, 2 zeropage, 3 zeropage-x, 4 zeropage-y,
5 absolute, 6 absolute-x, 7 absolute-y, 8 indirect, 9 indirect-x,
10 indirect-y, 11 implied, 12 branch). -/
structure OpRow where
  name : String
  imm : Int
  zp : Int
  zpx : Int
  zpy : Int
  abs : Int
  absx : Int
  absy : Int
  ind : Int
  indx : Int
  indy : Int
  impl : Int
  br : Int
deriving DecidableEq, Repr

/-- Output of one processed statement: an emitted byte array, the raw
instruction node returned when the instruction could not be encoded, or
the JS undefined that generateInstruction returns when the mnemonic has
no opcode-table row (process pushes that undefined verbatim). -/
inductive Item where
  | arr (cells : List RVal)
  | nodeI (ins : Instr)
  | undefI
deriving DecidableEq, Repr

/-- JS truth of (arg < PC) for a resolveArg result: null coerces to 0,
non-numbers compare as NaN and the test is false. -/
def jsLtNum (a : RVal) (p : Int) : Bool :=
  match a with
  | .num v => decide (v < p)
  | .nullv => decide (0 < p)
  | _ => false

/-- Numeric coercion of the branch operand inside the offset arithmetic
(only reached for a number or null). -/
def rvNum : RVal → Int
  | .num v => v
  | _ => 0

/-- Branch offset computation of generateInstruction, executed with PC
already incremented once for the opcode byte: a target below PC uses
(0xFF - (PC - target)) & 0xFF, otherwise (target - PC - 1) & 0xFF; a
still-symbolic operand falls into the second formula and its NaN masks
to 0. -/
def branchVal (a : RVal) (pcnow : Int) : Int :=
  if jsLtNum a pcnow then jsAnd255 (0xff - (pcnow - rvNum a))
  else
    match a with
    | .num v => jsAnd255 (v - pcnow - 1)
    | .nullv => jsAnd255 (0 - pcnow - 1)
    | _ => 0

/-- Function generateInstruction of the source: select the addressing
mode by the predicate chain, find the opcode-table row of the mnemonic
(uppercased), then emit per mode, updating PC. Notable faithful details:
the zero-page indexed arm wraps the opcode and operand in the JS comma
operator, so the emitted array holds only the operand; an absent row
returns undefined (Item.undefI); an unknown mode returns the node. -/
def generateInstruction (tbl : List OpRow) (ctx : Ctx) (ins : Instr) :
    Except AsmError (Item × Ctx) := do
  let mode ← selectMode ctx ins
  match tbl.find? (fun row => row.name = strToUpper ins.opcode) with
  | none => .ok (.undefI, ctx)
  | some row =>
    match mode with
    | some "immediate" =>
        let a := resolveArg ctx ins.arg
        let ctx' := { ctx with PC := ctx.PC + 2 }
        match a with
        | .str _ => .ok (.nodeI ins, ctx')
        | _ => .ok (.arr [.num row.imm, a], ctx')
    | some "zeropage" =>
        let a := resolveArg ctx ins.arg
        .ok (.arr [.num row.zp, a], { ctx with PC := ctx.PC + 2 })
    | some "absolute" =>
        let a := resolveArg ctx ins.arg
        let ctx' := { ctx with PC := ctx.PC + 3 }
        match a with
        | .num v =>
            .ok (.arr [.num row.abs, .num (jsAnd255 v), .num (jsShr8And255 v)], ctx')
        | .undefv => .ok (.arr [.num row.abs, .num 0, .num 0], ctx')
        | _ => .ok (.arr [.num row.abs, .nullv, .nullv], ctx')
    | some "indexed" =>
        match ins.arg with
        | some (.pair b reg) =>
            let a1 := resolveArg ctx (some (match b with
              | .num n => Arg.num n
              | .str s => Arg.str s))
            match a1 with
            | .str _ => .ok (.nodeI ins, { ctx with PC := ctx.PC + 3 })
            | _ =>
              if rvalInByteRange a1 then
                -- the source writes [reg = x ? (row.zpx, a1) : (row.zpy, a1)]:
                -- the JS comma operator discards the opcode byte
                .ok (.arr [a1], { ctx with PC := ctx.PC + 2 })
              else
                .ok (.arr [.num (if reg = "x" then row.absx else row.absy),
                           .num (jsToUint8 a1), .num (jsHiUint8 a1)],
                     { ctx with PC := ctx.PC + 3 })
        | _ =>
            -- unreachable: the chain selects indexed only for a pair operand
            .ok (.nodeI ins, ctx)
    | some "indirect" =>
        let a := resolveArg ctx ins.arg
        .ok (.arr [.num row.ind, .num (jsToUint8 a), .num (jsHiUint8 a)],
             { ctx with PC := ctx.PC + 3 })
    | some "indirectX" =>
        .ok (.arr [.num row.indx, resolveArg ctx ins.arg],
             { ctx with PC := ctx.PC + 2 })
    | some "indirectY" =>
        .ok (.arr [.num row.indy, resolveArg ctx ins.arg],
             { ctx with PC := ctx.PC + 2 })
    | some "implied" =>
        .ok (.arr [.num row.impl], { ctx with PC := ctx.PC + 1 })
    | some "branch" =>
        let a := resolveArg ctx ins.arg
        let pcnow := ctx.PC + 1
        .ok (.arr [.num row.br, .num (branchVal a pcnow)],
             { ctx with PC := pcnow + 1 })
    | _ => .ok (.nodeI ins, ctx)

/-- JS new Array(n).fill(0): a negative (or NaN) length is a RangeError;
otherwise a list of n zero bytes. -/
def jsArrayFill (n : Int) : Except AsmError (List RVal) :=
  if n < 0 then .error .rangeError
  else .ok (List.replicate n.toNat (.num 0))

/-- First directive argument as a number. The directives org, enum, dsb
and align use node.args[0] directly; the parser supplies a numeric
literal there, which is the contract this model covers (a missing or
non-numeric first argument is read as 0). -/
def arg0Num : List Arg → Int
  | (.num n) :: _ => n
  | _ => 0

/-- Double quote character. -/
def dquote : Char := Char.ofNat 34

/-- Single quote character. -/
def squote : Char := Char.ofNat 39

/-- Quote stripping of the byte-define directive: a string of length at
least two that starts and ends with the same (double or single) quote
loses both. -/
def stripQuotes (s : String) : String :=
  if 2 ≤ s.length &&
     ((strStartsWith s (String.mk [dquote]) && strEndsWith s (String.mk [dquote])) ||
      (strStartsWith s (String.mk [squote]) && strEndsWith s (String.mk [squote]))) then
    (s.drop 1).dropRight 1
  else s

/-- Byte cells the byte-define directive emits for one argument: a
string argument that resolves to itself is treated as a literal and
yields one byte per character code; an argument resolving to a number
yields its low byte; anything else yields one null placeholder. -/
def byteCellsOfArg (ctx : Ctx) (arg : Arg) : List RVal :=
  match arg with
  | .str s =>
      match resolveArg ctx (some (.str s)) with
      | .str t =>
          if t = s then (stripQuotes s).data.map (fun c => RVal.num c.toNat)
          else [.nullv]
      | .num v => [.num (jsAnd255 v)]
      | _ => [.nullv]
  | a =>
      match resolveArg ctx (some a) with
      | .num v => [.num (jsAnd255 v)]
      | _ => [.nullv]

/-- Word cells the word-define directive emits for one argument: two
null placeholders when the value is still a string, else the low and
high bytes (a null, expression or undefined value coerces to 0). -/
def wordCellsOfArg (ctx : Ctx) (arg : Arg) : List RVal :=
  match resolveArg ctx (some arg) with
  | .str _ => [.nullv, .nullv]
  | v => [.num (jsToUint8 v), .num (jsHiUint8 v)]

/-- Function generateDirective of the source. byte: emit the per-argument
cells and advance PC by their count. word: emit two cells per argument
and advance PC by twice the argument count. enum: save PC and jump to
the block start. org: the first occurrence just sets PC and marks it
set; later occurrences emit target minus current PC zero bytes (a
backward target is a JS RangeError) and jump. align: the source computes
the padding length as (PC % boundary) - PC, which is 0 for PC below the
boundary and a RangeError otherwise (and a RangeError for boundary 0,
whose JS modulus is NaN); PC advances by the emitted length. ende:
restore the saved PC. dsb: advance PC without emitting. An unknown
directive returns undefined and changes nothing. -/
def generateDirective (ctx : Ctx) (name : String) (args : List Arg) :
    Except AsmError (Option (List RVal) × Ctx) :=
  match name with
  | ".byte" =>
      let bytes := args.flatMap (byteCellsOfArg ctx)
      .ok (some bytes, { ctx with PC := ctx.PC + bytes.length })
  | ".word" =>
      let words := args.flatMap (wordCellsOfArg ctx)
      .ok (some words, { ctx with PC := ctx.PC + 2 * args.length })
  | ".enum" =>
      .ok (none, { ctx with enumSaveAdr := ctx.PC, PC := arg0Num args })
  | ".org" =>
      if ctx.PCSet = false then
        .ok (none, { ctx with PC := arg0Num args, PCSet := true })
      else do
        let fill ← jsArrayFill (arg0Num args - ctx.PC)
        .ok (some fill, { ctx with PC := arg0Num args })
  | ".align" =>
      if arg0Num args = 0 then .error .rangeError
      else do
        let len := Int.tmod ctx.PC (arg0Num args) - ctx.PC
        let padding ← jsArrayFill len
        .ok (some padding, { ctx with PC := ctx.PC + len })
  | ".ende" =>
      .ok (none, { ctx with PC := ctx.enumSaveAdr })
  | ".dsb" =>
      .ok (none, { ctx with PC := ctx.PC + arg0Num args })
  | _ => .ok (none, ctx)

/-- Function assignLabel of the source: on the first pass a name already
present in the global label map is a duplicate-label error (thrown
before any write, so the first address is untouched); otherwise the name
is assigned the current PC, with no uniqueness check on the second
pass. -/
def assignLabel (ctx : Ctx) (name : String) : Except AsmError Ctx :=
  if ctx.pass = 1 && hasKey ctx.labels name then
    .error (.duplicateLabel name)
  else
    .ok { ctx with labels := setKey ctx.labels name ctx.PC }

/-- Function assignLocalLabel of the source: lazily create the local map
of the current scope and record the label at the current PC. With no
enclosing global label the scope key is the JS string "null" (the
initial null currentLabel coerced to a property key): the label is
recorded there without any error. -/
def assignLocalLabel (ctx : Ctx) (name : String) : Ctx :=
  let inner := (ctx.localLabels.lookup ctx.currentLabel).getD []
  { ctx with
      localLabels := setKey ctx.localLabels ctx.currentLabel
        (setKey inner name ctx.PC) }

/-- Function process of the source, on one statement: directives push
their output when it is not undefined; a symbol definition stores its
raw right-hand side in the constant map; a label starting with the
local marker is recorded locally, any other label is assigned globally
and becomes the current scope; an instruction result is always pushed. -/
def processStmt (tbl : List OpRow) (ctx : Ctx) :
    Stmt → Except AsmError (List Item × Ctx)
  | .directive name args => do
      let (out, ctx') ← generateDirective ctx name args
      match out with
      | some bytes => .ok ([.arr bytes], ctx')
      | none => .ok ([], ctx')
  | .symbolDef l r =>
      .ok ([], { ctx with globalEnv := setKey ctx.globalEnv l r })
  | .label name =>
      if strStartsWith name "@" then
        .ok ([], assignLocalLabel ctx name)
      else do
        let ctx' ← assignLabel ctx name
        .ok ([], { ctx' with currentLabel := name })
  | .instruction ins => do
      let (item, ctx') ← generateInstruction tbl ctx ins
      .ok ([item], ctx')

/-- Function process of the source: fold over one statement group,
collecting pushed outputs in order. -/
def process (tbl : List OpRow) : Ctx → List Stmt → Except AsmError (List Item × Ctx)
  | ctx, [] => .ok ([], ctx)
  | ctx, s :: rest => do
      let (items, ctx') ← processStmt tbl ctx s
      let (more, ctxF) ← process tbl ctx' rest
      .ok (items ++ more, ctxF)

/-- Function gen1 of the source: reset PC to 0 and the origin flag, then
process every statement group of the parsed program in order. -/
def gen1 (tbl : List OpRow) (ctx : Ctx) (code : List (List Stmt)) :
    Except AsmError (List (List Item) × Ctx) :=
  let rec go : Ctx → List (List Stmt) → Except AsmError (List (List Item) × Ctx)
    | c, [] => .ok ([], c)
    | c, g :: gs => do
        let (items, c') ← process tbl c g
        let (more, cF) ← go c' gs
        .ok (items :: more, cF)
  go { ctx with PC := 0, PCSet := false } code

/-- Flattened output cell of the final bytecode, i.e. an element of the
JS result of flat(2): emitted cell values, an unencoded instruction
node, or the undefined of an unknown mnemonic (flat removes array
nesting but keeps non-array elements such as objects, null and
undefined). -/
inductive Cell where
  | v (rv : RVal)
  | nodeC (ins : Instr)
  | undefC
deriving DecidableEq, Repr

/-- JS flat(2) on the per-group item lists: one level for the groups and
one for the emitted byte arrays. -/
def flat2 (groups : List (List Item)) : List Cell :=
  groups.flatMap (fun items =>
    items.flatMap (fun it =>
      match it with
      | .arr cells => cells.map Cell.v
      | .nodeI ins => [.nodeC ins]
      | .undefI => [.undefC]))

/-- Merge step of mesenLabels for one local label of a scope: a name
already present in the map being extended goes in under the composite
key (at-sign, scope owner, underscore, local name without its marker),
otherwise under its own name. -/
def mergeStep (scope : String) (m : List (String × Int)) (p : String × Int) :
    List (String × Int) :=
  if hasKey m p.1 then
    setKey m ("@" ++ scope ++ "_" ++ p.1.drop 1) p.2
  else
    setKey m p.1 p.2

/-- Label merge of function mesenLabels of the source: every local label
of every scope is inserted into the global label map (the same object
the caller receives), in scope and insertion order. -/
def mergeLocals (labels : List (String × Int))
    (locals : List (String × List (String × Int))) : List (String × Int) :=
  locals.foldl (fun acc sc => sc.2.foldl (mergeStep sc.1) acc) labels

/-- Lowercase hexadecimal rendering of a JS number, v.toString(16). -/
def intHexJS (v : Int) : String :=
  if v < 0 then "-" ++ String.mk (Nat.toDigits 16 v.natAbs)
  else String.mk (Nat.toDigits 16 v.toNat)

/-- JS padStart(4, "0") on a string. -/
def padStart4 (s : String) : String :=
  if s.length < 4 then String.mk (List.replicate (4 - s.length) '0') ++ s
  else s

/-- Text rendering of function mesenLabels: one line per merged label,
region split at 0x8000 with the PRG-ROM region rebased. -/
def mesenText (labels : List (String × Int)) : String :=
  labels.foldl (fun acc p =>
    if 0x8000 ≤ p.2 then
      acc ++ "NesPrgRom:" ++ padStart4 (intHexJS (p.2 - 0x8000)) ++ ":" ++ p.1 ++ "\n"
    else
      acc ++ "NesInternalRam:" ++ padStart4 (intHexJS p.2) ++ ":" ++ p.1 ++ "\n") ""

/-- Module state that the source keeps in module scope and that function
generate does not reinitialize: the constant map globalEnv and the
scratch-block save slot enumSaveAdr. A fresh module load has both
empty. -/
structure ModuleState where
  globalEnv : List (String × Arg)
  enumSaveAdr : Int
deriving DecidableEq, Repr

/-- Fresh module state of a newly loaded module. -/
def ms0 : ModuleState := { globalEnv := [], enumSaveAdr := 0 }

/-- Context at the start of function generate: the tables generate does
reset are empty, currentLabel is the JS null key, and the module-level
leftovers come from the given module state. -/
def startCtx (ms : ModuleState) : Ctx :=
  { globalEnv := ms.globalEnv, labels := [], localLabels := [],
    currentLabel := "null", PC := 0, PCSet := false,
    enumSaveAdr := ms.enumSaveAdr, pass := 1 }

/-- Result record of function generate. -/
structure GenResult where
  bytecode : List Cell
  labels : List (String × Int)
  mesenLabels : String
deriving DecidableEq, Repr

/-- Both passes of function generate, before the export step: pass 1
collects labels, pass 2 re-runs the same statement groups and keeps the
emitted items. Returns the flattened bytecode, the global label map and
the local label maps as they stand after pass 2, and the module state
left behind for a next invocation. -/
def genPasses (tbl : List OpRow) (ms : ModuleState) (code : List (List Stmt)) :
    Except AsmError ((List Cell × List (String × Int) ×
      List (String × List (String × Int))) × ModuleState) := do
  let (_, ctx1) ← gen1 tbl (startCtx ms) code
  let (groups, ctx2) ← gen1 tbl { ctx1 with pass := 2 } code
  .ok ((flat2 groups, ctx2.labels, ctx2.localLabels),
       { globalEnv := ctx2.globalEnv, enumSaveAdr := ctx2.enumSaveAdr })

/-- Function generate of the source: reset labels, localLabels,
currentLabel and pass (but not globalEnv or enumSaveAdr), run both
passes, then build the result record; constructing it calls mesenLabels,
which merges every local label into the same labels object the record
returns. -/
def generate (tbl : List OpRow) (ms : ModuleState) (code : List (List Stmt)) :
    Except AsmError (GenResult × ModuleState) := do
  let ((bytecode, labels, localLabels), ms') ← genPasses tbl ms code
  let merged := mergeLocals labels localLabels
  .ok ({ bytecode := bytecode, labels := merged, mesenLabels := mesenText merged },
       ms')

/-! ## Concrete opcode-table rows used as witness inputs

The opcode table itself is an external dataset (spec section 6); these
rows carry the standard 6502 byte values needed by concrete examples. -/

def rowLDA : OpRow :=
  { name := "LDA", imm := 0xA9, zp := 0xA5, zpx := 0xB5, zpy := 0,
    abs := 0xAD, absx := 0xBD, absy := 0xB9, ind := 0, indx := 0xA1,
    indy := 0xB1, impl := 0, br := 0 }

def rowBNE : OpRow :=
  { name := "BNE", imm := 0, zp := 0, zpx := 0, zpy := 0, abs := 0,
    absx := 0, absy := 0, ind := 0, indx := 0, indy := 0, impl := 0,
    br := 0xD0 }

def testOpcodes : List OpRow := [rowLDA, rowBNE]

/-! ## Claim-side definitions -/

/-- Branch offset exactly as the claim words it: with PCnow the PC value
after the increment for the opcode byte, a target below PCnow encodes as
(0xFF - (PCnow - target)) masked to a byte, any other target as
(target - PCnow - 1) masked to a byte. -/
def claimBranchOffset (target pcnow : Int) : Int :=
  if target < pcnow then (0xff - (pcnow - target)) % 256
  else (target - pcnow - 1) % 256

/-- Mode selection as the claim words it: the last candidate in the
fixed order whose test is positive decides the mode (none positive means
no mode). -/
def lastMatch (cands : List (Bool × String)) : Option String :=
  (cands.reverse.find? (fun p => p.1)).map (fun p => p.2)

/-- Alignment padding as the claim words it: (boundary - (PC mod
boundary)) mod boundary, a nonnegative count. -/
def claimAlignPad (pc b : Int) : Int := (b - pc % b) % b

/-- Helper: a left fold that overwrites its accumulator at every
positive candidate computes the last positive candidate. -/
theorem foldl_overwrite_eq_lastMatch (cands : List (Bool × String))
    (a : Option String) :
    cands.foldl (fun acc p => if p.1 then some p.2 else acc) a
      = match cands.reverse.find? (fun p => p.1) with
        | some q => some q.2
        | none => a := by
  induction cands generalizing a with
  | nil => simp
  | cons p rest ih =>
      simp only [List.foldl_cons, List.reverse_cons, List.find?_append]
      rw [ih]
      cases hf : rest.reverse.find? (fun q => q.1) with
      | some q => simp [Option.or]
      | none =>
          cases hp : p.1 <;> simp [Option.or, List.find?, hp]

deriving instance DecidableEq for Except

/-- C2: for every instruction statement, the addressing mode the encoder
uses is the one assigned by the last positive predicate among zero-page,
immediate, indexed, indirect, absolute, indirect-indexed-by-Y,
indexed-indirect-by-X, implied, branch, evaluated in that fixed order (a
later positive match overrides any earlier one). -/
theorem claim_C2 (ctx : Ctx) (ins : Instr) (cands : List (Bool × String))
    (h : modeCandidates ctx ins = .ok cands) :
    selectMode ctx ins = .ok (lastMatch cands) := by
  unfold selectMode
  rw [h]
  show Except.ok
      (cands.foldl (fun acc p => if p.1 then some p.2 else acc) none)
    = Except.ok (lastMatch cands)
  rw [foldl_overwrite_eq_lastMatch]
  cases hf : cands.reverse.find? (fun p => p.1) <;> simp [lastMatch, hf]

/-- Witness for C2 at a concrete instruction whose operand satisfies
both the zero-page and the immediate predicate: the later immediate
match wins. -/
theorem claim_C2_witness :
    modeCandidates (startCtx ms0)
        { opcode := "LDA", mode := some "immediate", arg := some (.num 1) }
      = .ok [(true, "zeropage"), (true, "immediate"), (false, "indexed"),
             (false, "indirect"), (false, "absolute"), (false, "indirectY"),
             (false, "indirectX"), (false, "implied"), (false, "branch")] ∧
    selectMode (startCtx ms0)
        { opcode := "LDA", mode := some "immediate", arg := some (.num 1) }
      = .ok (some "immediate") := by
  refine ⟨by decide, ?_⟩
  have h := claim_C2 (startCtx ms0)
    { opcode := "LDA", mode := some "immediate", arg := some (.num 1) }
    [(true, "zeropage"), (true, "immediate"), (false, "indexed"),
     (false, "indirect"), (false, "absolute"), (false, "indirectY"),
     (false, "indirectX"), (false, "implied"), (false, "branch")]
    (by decide)
  rw [h]
  decide

/-- Helper: bind on a successful Except value. -/
theorem exceptOkBind {ε α β : Type} (a : α) (f : α → Except ε β) :
    (Except.ok a : Except ε α) >>= f = f a := rfl

/-- Helper: a branch mnemonic cannot be the shift mnemonic, so the
implied predicate cannot throw on a branch instruction. -/
theorem isImpliedE_ok_of_isBranch (ins : Instr) (hbr : isBranch ins = true) :
    isImpliedE ins = .ok (ins.arg = none) := by
  have hasl : ¬ strToLower ins.opcode = "asl" := by
    intro h
    rw [isBranch, h] at hbr
    exact absurd hbr (by decide)
  unfold isImpliedE
  rw [if_neg hasl]

/-- Helper: a branch mnemonic always selects the branch mode (the branch
predicate is last in the chain and overrides everything). -/
theorem selectMode_branch (ctx : Ctx) (ins : Instr) (hbr : isBranch ins = true) :
    selectMode ctx ins = .ok (some "branch") := by
  unfold selectMode modeCandidates
  rw [isImpliedE_ok_of_isBranch ins hbr]
  rw [exceptOkBind, exceptOkBind]
  simp [List.foldl, hbr]

/-- C1: every branch instruction whose target resolves to an address t
is emitted as the branch opcode of its table row followed by one offset
byte computed, with PCnow the PC after the opcode-byte increment, as
(0xFF - (PCnow - t)) masked to a byte when t is below PCnow and as
(t - PCnow - 1) masked to a byte otherwise, and PC advances by 2 in
total. -/
theorem branchVal_num (t p : Int) :
    branchVal (.num t) p = claimBranchOffset t p := by
  simp [branchVal, claimBranchOffset, jsLtNum, rvNum, jsAnd255]

theorem claim_C1 (tbl : List OpRow) (ctx : Ctx) (ins : Instr) (row : OpRow)
    (t : Int)
    (hbr : isBranch ins = true)
    (hrow : tbl.find? (fun r => r.name = strToUpper ins.opcode) = some row)
    (harg : resolveArg ctx ins.arg = .num t) :
    generateInstruction tbl ctx ins =
      .ok (.arr [.num row.br, .num (claimBranchOffset t (ctx.PC + 1))],
           { ctx with PC := ctx.PC + 2 }) := by
  have hred : generateInstruction tbl ctx ins =
      .ok (.arr [.num row.br, .num (branchVal (.num t) (ctx.PC + 1))],
           { ctx with PC := ctx.PC + 1 + 1 }) := by
    unfold generateInstruction
    rw [selectMode_branch ctx ins hbr, exceptOkBind, hrow, harg]
    rfl
  rw [hred, branchVal_num]
  norm_num
  omega

/-- Witness for C1: a backward branch to a label at 0x8000 with the BNE
byte at 0x8002 (so PCnow is 0x8003) encodes as D0 FC, matching the
hand-computed example of the claim. -/
theorem claim_C1_witness :
    generateInstruction testOpcodes
        { startCtx ms0 with PC := 0x8002, labels := [("loop", 0x8000)] }
        { opcode := "BNE", mode := none, arg := some (.str "loop") }
      = .ok (.arr [.num 0xD0, .num 0xFC],
             { startCtx ms0 with PC := 0x8004, labels := [("loop", 0x8000)] })
    ∧ claimBranchOffset 0x8000 0x8003 = 0xFC := by
  constructor
  · have h := claim_C1 testOpcodes
      { startCtx ms0 with PC := 0x8002, labels := [("loop", 0x8000)] }
      { opcode := "BNE", mode := none, arg := some (.str "loop") }
      rowBNE 0x8000 (by decide) (by decide) (by decide)
    rw [h]
    decide
  · decide

/-- C3: the first origin directive sets PC and emits nothing; every
later origin directive at a target at or past the current PC emits
exactly target minus current PC zero bytes and then sets PC to the
target; in particular origin 0x8000 followed immediately by origin
0x8010 emits 16 zero bytes and leaves PC at 0x8010. -/
theorem claim_C3 :
    (∀ (ctx : Ctx) (t : Int), ctx.PCSet = false →
      generateDirective ctx ".org" [.num t]
        = .ok (none, { ctx with PC := t, PCSet := true })) ∧
    (∀ (ctx : Ctx) (t : Int), ctx.PCSet = true → ctx.PC ≤ t →
      generateDirective ctx ".org" [.num t]
        = .ok (some (List.replicate (t - ctx.PC).toNat (.num 0)),
               { ctx with PC := t })) ∧
    process testOpcodes (startCtx ms0)
        [.directive ".org" [.num 0x8000], .directive ".org" [.num 0x8010]]
      = .ok ([.arr (List.replicate 16 (.num 0))],
             { startCtx ms0 with PC := 0x8010, PCSet := true }) := by
  refine ⟨?_, ?_, by decide⟩
  · intro ctx t h
    simp [generateDirective, h, arg0Num]
  · intro ctx t h hle
    have hnn : ¬ (t - ctx.PC < 0) := by omega
    simp [generateDirective, h, arg0Num, jsArrayFill, hnn, exceptOkBind]

/-- Witness for C3: both universally quantified parts instantiated on
the concrete origin pair of the claim. -/
theorem claim_C3_witness :
    generateDirective (startCtx ms0) ".org" [.num 0x8000]
      = .ok (none, { startCtx ms0 with PC := 0x8000, PCSet := true }) ∧
    generateDirective { startCtx ms0 with PC := 0x8000, PCSet := true }
        ".org" [.num 0x8010]
      = .ok (some (List.replicate 16 (.num 0)),
             { startCtx ms0 with PC := 0x8010, PCSet := true }) := by
  constructor
  · exact claim_C3.1 (startCtx ms0) 0x8000 rfl
  · have h := claim_C3.2.1 { startCtx ms0 with PC := 0x8000, PCSet := true }
      0x8010 rfl (by decide)
    rw [h]
    decide

/-- C4 (refuting the claimed padding count): the align directive as
implemented computes its padding length as (PC % boundary) - PC, not as
(boundary - (PC mod boundary)) mod boundary. At PC 3 with boundary 8 it
emits no bytes and leaves PC at 3, while the claimed formula demands 5
zero bytes; at PC 0x8003 with boundary 0x100 it throws a JS RangeError
(negative array length) where the claimed formula demands 0xFD bytes. -/
theorem claim_C4 :
    generateDirective { startCtx ms0 with PC := 3 } ".align" [.num 8]
      = .ok (some [], { startCtx ms0 with PC := 3 }) ∧
    claimAlignPad 3 8 = 5 ∧
    generateDirective { startCtx ms0 with PC := 0x8003 } ".align" [.num 0x100]
      = .error .rangeError ∧
    claimAlignPad 0x8003 0x100 = 0xFD := by decide

/-- C5: defining a global label whose name already exists fails with the
duplicate-label error during the first pass only, and the error is
raised before any write so the first recorded address is untouched; on
the first pass a fresh name is recorded at the current PC; on the second
pass the label is re-assigned without any uniqueness check. -/
theorem claim_C5 :
    (∀ (ctx : Ctx) (name : String) (a : Int),
      ctx.pass = 1 → ctx.labels.lookup name = some a →
      assignLabel ctx name = .error (.duplicateLabel name)) ∧
    (∀ (ctx : Ctx) (name : String),
      ctx.pass = 1 → ctx.labels.lookup name = none →
      assignLabel ctx name
        = .ok { ctx with labels := setKey ctx.labels name ctx.PC }) ∧
    (∀ (ctx : Ctx) (name : String),
      ctx.pass = 2 →
      assignLabel ctx name
        = .ok { ctx with labels := setKey ctx.labels name ctx.PC }) := by
  refine ⟨?_, ?_, ?_⟩
  · intro ctx name a h1 h2
    simp [assignLabel, hasKey, h1, h2]
  · intro ctx name h1 h2
    simp [assignLabel, hasKey, h1, h2]
  · intro ctx name h2
    simp [assignLabel, hasKey, h2]

/-- Witness for C5: a duplicate of label a fails on pass 1 leaving its
address alone, a fresh label b is recorded, and on pass 2 the duplicate
of a is re-assigned without complaint. -/
theorem claim_C5_witness :
    assignLabel { startCtx ms0 with labels := [("a", 1)] } "a"
      = .error (.duplicateLabel "a") ∧
    assignLabel { startCtx ms0 with labels := [("a", 1)] } "b"
      = .ok { startCtx ms0 with labels := [("a", 1), ("b", 0)] } ∧
    assignLabel { startCtx ms0 with labels := [("a", 1)], pass := 2 } "a"
      = .ok { startCtx ms0 with labels := [("a", 0)], pass := 2 } := by
  refine ⟨claim_C5.1 _ "a" 1 rfl (by decide), ?_, ?_⟩
  · have h := claim_C5.2.1 { startCtx ms0 with labels := [("a", 1)] } "b"
      rfl (by decide)
    rw [h]
    decide
  · have h := claim_C5.2.2 { startCtx ms0 with labels := [("a", 1)], pass := 2 }
      "a" rfl
    rw [h]
    decide

/-- C6 (refuting the claimed zero-page-indexed encoding): for an indexed
operand whose base resolves below 256 the encoder advances PC by 2 but,
because the source wraps opcode and operand in the JS comma operator,
emits a single-element array holding only the operand, not the
zero-page-indexed opcode followed by the operand. The absolute-indexed
arm (base 256 or more) does emit opcode plus two little-endian bytes and
advance PC by 3. -/
theorem claim_C6 :
    generateInstruction testOpcodes (startCtx ms0)
        { opcode := "LDA", mode := none, arg := some (.pair (.num 0x10) "x") }
      = .ok (.arr [.num 0x10], { startCtx ms0 with PC := 2 }) ∧
    rowLDA.zpx = 0xB5 ∧
    [RVal.num 0x10] ≠ [RVal.num 0xB5, RVal.num 0x10] ∧
    generateInstruction testOpcodes (startCtx ms0)
        { opcode := "LDA", mode := none, arg := some (.pair (.num 0x1234) "x") }
      = .ok (.arr [.num 0xBD, .num 0x34, .num 0x12],
             { startCtx ms0 with PC := 3 }) := by decide

/-- Name resolution as both the claim and the source have it: the
constant map is consulted first (returning the raw stored value), then
the symbol table, and an unresolved name is returned unchanged. -/
def claimResolveName (ctx : Ctx) (s : String) : RVal :=
  if hasKey ctx.globalEnv s then
    argToRVal ((ctx.globalEnv.lookup s).getD (.num 0))
  else resolveLabelStr ctx s

/-- Side resolution as the claim words it: each side of a binary
expression is resolved recursively, i.e. a name side goes through the
full name resolution including the constant map. -/
def claimResolveSide (ctx : Ctx) : SArg → RVal
  | .num n => .num n
  | .str s => claimResolveName ctx s

/-- Argument resolution exactly as the claim words it: a literal number
returns itself; a name resolves via the constant map, else the symbol
table, else is returned unchanged; a binary expression has both sides
evaluated recursively and plus applied when both sides are then numeric,
otherwise the node is returned unchanged. -/
def claimResolveArgument (ctx : Ctx) : Option Arg → RVal
  | none => .nullv
  | some (.num n) => .num n
  | some (.str s) => claimResolveName ctx s
  | some (.pair _ _) => .undefv
  | some (.expr l op r) =>
      match claimResolveSide ctx l, claimResolveSide ctx r with
      | .num a, .num b => if op = "+" then .num (a + b) else .exprv l op r
      | _, _ => .exprv l op r

/-- Counterexample to C7 as stated: with the constant n bound to 5 and
no labels, the expression n + 1 resolves to 6 under the claimed
recursive side resolution, but the source resolves expression sides with
resolveLabel only (never the constant map) and returns the expression
node unchanged. -/
theorem claim_C7_counterexample :
    claimResolveArgument { startCtx ms0 with globalEnv := [("n", .num 5)] }
        (some (.expr (.str "n") "+" (.num 1))) = .num 6 ∧
    resolveArg { startCtx ms0 with globalEnv := [("n", .num 5)] }
        (some (.expr (.str "n") "+" (.num 1)))
      = .exprv (.str "n") "+" (.num 1) ∧
    (RVal.num 6 : RVal) ≠ .exprv (.str "n") "+" (.num 1) := by decide

/-- Argument resolution as amended: identical to the claim except that
the sides of a binary expression are evaluated by label lookup only (the
constant map is not consulted for expression operands), and plus is
applied when neither side remains an unresolved name. -/
def amendedResolveArgument (ctx : Ctx) : Option Arg → RVal
  | none => .nullv
  | some (.num n) => .num n
  | some (.str s) => claimResolveName ctx s
  | some (.pair _ _) => .undefv
  | some (.expr l op r) =>
      match resolveSide ctx l, resolveSide ctx r with
      | .num a, .num b => if op = "+" then .num (a + b) else .exprv l op r
      | _, _ => .exprv l op r

/-- Helper: the constant-map-first name resolution agrees with a direct
case split on the constant-map lookup. -/
theorem claimResolveName_eq (ctx : Ctx) (s : String) :
    claimResolveName ctx s
      = match ctx.globalEnv.lookup s with
        | some raw => argToRVal raw
        | none => resolveLabelStr ctx s := by
  unfold claimResolveName hasKey
  split
  · next h =>
      obtain ⟨raw, hr⟩ := Option.isSome_iff_exists.mp h
      simp [hr]
  · next h =>
      have hn : ctx.globalEnv.lookup s = none :=
        Option.not_isSome_iff_eq_none.mp h
      simp [hn]

/-- C7 as amended: argument resolution dispatches by shape, with names
resolved constant-map first, and with expression sides resolved by label
lookup only before plus is applied or the node returned unchanged. -/
theorem claim_C7 (ctx : Ctx) (arg : Option Arg) :
    resolveArg ctx arg = amendedResolveArgument ctx arg := by
  match arg with
  | none => rfl
  | some (.num n) => rfl
  | some (.pair b r) => rfl
  | some (.str s) =>
      show (match ctx.globalEnv.lookup s with
            | some raw => argToRVal raw
            | none => resolveLabelStr ctx s) = claimResolveName ctx s
      rw [claimResolveName_eq]
  | some (.expr l op r) =>
      simp only [resolveArg, amendedResolveArgument, evaluateExpression]
      cases resolveSide ctx l <;> cases resolveSide ctx r <;> rfl

/-- C8 (refuting the claimed error report): a local label defined before
any global label has established a scope is not reported as an error;
the source silently records it in a scope keyed by the JS string "null"
(the initial null scope owner coerced to a property key). -/
theorem claim_C8 :
    process testOpcodes (startCtx ms0) [.label "@loop"]
      = .ok ([], { startCtx ms0 with localLabels := [("null", [("@loop", 0)])] })
      := by decide

/-- Program defining the constant foo. -/
def constProg : List (List Stmt) := [[.symbolDef "foo" (.num 5)]]

/-- Program using the name foo as an immediate operand without defining
it. -/
def useProg : List (List Stmt) :=
  [[.instruction { opcode := "LDA", mode := some "immediate",
                   arg := some (.str "foo") }]]

/-- C9 (refuting the claimed cross-invocation isolation): generate
resets labels, localLabels, currentLabel, pass, PC and the origin flag,
but never the module-level constant map (or the scratch save slot).
After assembling a program that defines the constant foo, assembling a
program that merely uses foo yields A9 05, whereas a fresh invocation on
the same input leaves the instruction unresolved: the result of
assembling an input is not independent of earlier invocations. -/
theorem claim_C9 :
    generate testOpcodes ms0 constProg
      = .ok ({ bytecode := [], labels := [], mesenLabels := "" },
             { globalEnv := [("foo", .num 5)], enumSaveAdr := 0 }) ∧
    generate testOpcodes ms0 useProg
      = .ok ({ bytecode := [.nodeC { opcode := "LDA", mode := some "immediate",
                                     arg := some (.str "foo") }],
               labels := [], mesenLabels := "" }, ms0) ∧
    generate testOpcodes { globalEnv := [("foo", .num 5)], enumSaveAdr := 0 }
        useProg
      = .ok ({ bytecode := [.v (.num 0xA9), .v (.num 5)], labels := [],
               mesenLabels := "" },
             { globalEnv := [("foo", .num 5)], enumSaveAdr := 0 }) ∧
    ([Cell.nodeC { opcode := "LDA", mode := some "immediate",
                   arg := some (.str "foo") }]
      ≠ [Cell.v (.num 0xA9), Cell.v (.num 5)]) := by decide

/-- Helper: a map write is read back at the written key and leaves every
other key unchanged. -/
theorem lookup_setKey {α : Type} (m : List (String × α)) (k k' : String) (v : α) :
    (setKey m k v).lookup k' = if k' = k then some v else m.lookup k' := by
  induction m with
  | nil =>
      by_cases h : k' = k <;>
        simp [setKey, List.lookup_cons, h, beq_false_of_ne]
  | cons p rest ih =>
      obtain ⟨a, b⟩ := p
      by_cases h1 : a = k
      · subst h1
        by_cases h2 : k' = a <;>
          simp [setKey, List.lookup_cons, h2, beq_false_of_ne]
      · by_cases h2 : k' = a
        · subst h2
          have hk : ¬ k' = k := fun h => absurd h.symm (fun hh => h1 hh.symm)
          simp [setKey, h1, List.lookup_cons, hk]
        · simp [setKey, h1, List.lookup_cons, h2, beq_false_of_ne, ih]

/-- Helper: key presence after a map write. -/
theorem hasKey_setKey {α : Type} (m : List (String × α)) (k k' : String) (v : α) :
    hasKey (setKey m k v) k' = (k' = k || hasKey m k') := by
  by_cases h : k' = k <;> simp [hasKey, lookup_setKey, h]

/-- Helper: a string starting with the at sign never equals one that
does not. -/
theorem ne_of_startsWith_at {a k : String}
    (ha : strStartsWith a "@" = true) (hk : strStartsWith k "@" = false) :
    k ≠ a := by
  intro h
  rw [h, ha] at hk
  exact Bool.true_eq_false.mp hk

/-- Helper: a string built by prefixing the at sign starts with it. -/
theorem strStartsWith_at_append (s : String) :
    strStartsWith ("@" ++ s) "@" = true := by
  have h1 : ("@" ++ s).data = '@' :: s.data := by
    rw [String.data_append]
    rfl
  simp [strStartsWith, h1, List.isPrefixOf]

/-- Helper: one merge step only writes keys starting with the at sign
(assuming the local name does), so it preserves the lookup of any other
key. -/
theorem lookup_mergeStep_of_not_at (s : String) (m : List (String × Int))
    (p : String × Int) (k : String)
    (hp : strStartsWith p.1 "@" = true) (hk : strStartsWith k "@" = false) :
    (mergeStep s m p).lookup k = m.lookup k := by
  unfold mergeStep
  split
  · rw [lookup_setKey]
    have : k ≠ "@" ++ (s ++ ("_" ++ p.1.drop 1)) :=
      ne_of_startsWith_at (strStartsWith_at_append _) hk
    simp only [String.append_assoc] at this ⊢
    rw [if_neg this]
  · rw [lookup_setKey, if_neg (ne_of_startsWith_at hp hk)]

/-- Helper: folding merge steps over locals whose names all start with
the at sign preserves the lookup of a key that does not. -/
theorem lookup_foldl_mergeStep_of_not_at (s : String)
    (inner : List (String × Int)) (k : String)
    (hk : strStartsWith k "@" = false) :
    ∀ (m : List (String × Int)),
      (∀ p ∈ inner, strStartsWith p.1 "@" = true) →
      (inner.foldl (mergeStep s) m).lookup k = m.lookup k := by
  induction inner with
  | nil => intro m _; rfl
  | cons p rest ih =>
      intro m hall
      rw [List.foldl_cons, ih _ (fun q hq => hall q (List.mem_cons_of_mem p hq)),
        lookup_mergeStep_of_not_at s m p k (hall p (List.mem_cons_self p rest)) hk]

/-- Helper: the whole merge preserves the lookup of any key that does
not start with the at sign, provided every local name does. -/
theorem lookup_mergeLocals_of_not_at (LL : List (String × List (String × Int)))
    (k : String) (hk : strStartsWith k "@" = false) :
    ∀ (L : List (String × Int)),
      (∀ sc ∈ LL, ∀ p ∈ sc.2, strStartsWith p.1 "@" = true) →
      (mergeLocals L LL).lookup k = L.lookup k := by
  induction LL with
  | nil => intro L _; rfl
  | cons sc rest ih =>
      intro L hall
      show (mergeLocals (sc.2.foldl (mergeStep sc.1) L) rest).lookup k = L.lookup k
      rw [ih _ (fun q hq p hp => hall q (List.mem_cons_of_mem sc hq) p hp),
        lookup_foldl_mergeStep_of_not_at sc.1 sc.2 k hk L
          (fun p hp => hall sc (List.mem_cons_self sc rest) p hp)]

/-- Helper: key presence is monotone along merge-step folds. -/
theorem hasKey_foldl_mergeStep_mono (s : String)
    (inner : List (String × Int)) (k : String) :
    ∀ (m : List (String × Int)), hasKey m k = true →
      hasKey (inner.foldl (mergeStep s) m) k = true := by
  induction inner with
  | nil => intro m h; exact h
  | cons p rest ih =>
      intro m h
      rw [List.foldl_cons]
      refine ih _ ?_
      unfold mergeStep
      split <;> simp [hasKey_setKey, h]

/-- Helper: key presence is monotone along the scope fold of the
merge. -/
theorem hasKey_mergeLocals_mono (LL : List (String × List (String × Int)))
    (k : String) :
    ∀ (L : List (String × Int)), hasKey L k = true →
      hasKey (mergeLocals L LL) k = true := by
  induction LL with
  | nil => intro L h; exact h
  | cons sc rest ih =>
      intro L h
      exact ih _ (hasKey_foldl_mergeStep_mono sc.1 sc.2 k L h)

/-- Helper: one merge step leaves its local label present under its own
name or under the composite key. -/
theorem mergeStep_inserts (s : String) (m : List (String × Int))
    (n : String) (v : Int) :
    hasKey (mergeStep s m (n, v)) n = true ∨
    hasKey (mergeStep s m (n, v)) ("@" ++ s ++ "_" ++ n.drop 1) = true := by
  unfold mergeStep
  split
  · right
    simp [hasKey_setKey]
  · left
    simp [hasKey_setKey]

/-- C10: the labels map the assemble entry point returns is the merge of
the pass-2 global label map with every local label: generate returns
exactly the merged map the debug-symbol exporter builds; merging never
touches keys that lack the local marker (so all global entries survive
unchanged); and every local label of every scope ends up present under
its own name or under the composite key at-scope-underscore-name. -/
theorem claim_C10 (tbl : List OpRow) (ms : ModuleState)
    (code : List (List Stmt)) (bc : List Cell) (L : List (String × Int))
    (LL : List (String × List (String × Int))) (ms' : ModuleState)
    (r : GenResult)
    (hp : genPasses tbl ms code = .ok ((bc, L, LL), ms'))
    (hg : generate tbl ms code = .ok (r, ms'))
    (hat : ∀ sc ∈ LL, ∀ p ∈ sc.2, strStartsWith p.1 "@" = true) :
    r.labels = mergeLocals L LL ∧
    (∀ k, strStartsWith k "@" = false →
      (mergeLocals L LL).lookup k = L.lookup k) ∧
    (∀ sc ∈ LL, ∀ p ∈ sc.2,
      hasKey (mergeLocals L LL) p.1 = true ∨
      hasKey (mergeLocals L LL) ("@" ++ sc.1 ++ "_" ++ p.1.drop 1) = true) := by
  refine ⟨?_, ?_, ?_⟩
  · unfold generate at hg
    rw [hp, exceptOkBind] at hg
    have := (Except.ok.injEq _ _).mp hg
    have hr : r = { bytecode := bc, labels := mergeLocals L LL,
                    mesenLabels := mesenText (mergeLocals L LL) } := by
      have h1 := congrArg Prod.fst this
      exact h1.symm
    rw [hr]
  · intro k hk
    exact lookup_mergeLocals_of_not_at LL k hk L hat
  · intro sc hsc p hip
    obtain ⟨LL1, LL2, hLL⟩ := List.append_of_mem hsc
    obtain ⟨I1, I2, hI⟩ := List.append_of_mem hip
    subst hLL
    have hsplit : mergeLocals L (LL1 ++ sc :: LL2)
        = mergeLocals
            (I2.foldl (mergeStep sc.1)
              (mergeStep sc.1 (I1.foldl (mergeStep sc.1) (mergeLocals L LL1)) p))
            LL2 := by
      unfold mergeLocals
      rw [List.foldl_append, List.foldl_cons]
      congr 1
      rw [hI, List.foldl_append, List.foldl_cons]
    rw [hsplit]
    obtain ⟨n, v⟩ := p
    rcases mergeStep_inserts sc.1 (I1.foldl (mergeStep sc.1) (mergeLocals L LL1)) n v with h | h
    · exact Or.inl (hasKey_mergeLocals_mono LL2 n _
        (hasKey_foldl_mergeStep_mono sc.1 I2 n _ h))
    · exact Or.inr (hasKey_mergeLocals_mono LL2 _ _
        (hasKey_foldl_mergeStep_mono sc.1 I2 _ _ h))

/-- Program with two scopes a and b that each define the same local
label name. -/
def twoScopeProg : List (List Stmt) :=
  [[.directive ".org" [.num 0x8000],
    .label "a", .label "@loop",
    .instruction { opcode := "LDA", mode := some "immediate", arg := some (.num 1) },
    .label "b", .label "@loop"]]

/-- Witness for C10 on the two-scope program: the returned labels map is
the merged map (the first local goes in under its own name, the second,
colliding with the first, under the composite key), non-local keys keep
their global addresses, the first local is reachable under its own name
(and not under a composite key), and the second ends up under the
composite key. -/
theorem claim_C10_witness :
    (generate testOpcodes ms0 twoScopeProg).map (fun p => p.1.labels)
      = .ok [("a", 0x8000), ("b", 0x8002), ("@loop", 0x8000), ("@b_loop", 0x8002)]
    ∧ (mergeLocals [("a", 0x8000), ("b", 0x8002)]
        [("a", [("@loop", 0x8000)]), ("b", [("@loop", 0x8002)])]).lookup "a"
      = some 0x8000
    ∧ hasKey (mergeLocals [("a", 0x8000), ("b", 0x8002)]
        [("a", [("@loop", 0x8000)]), ("b", [("@loop", 0x8002)])]) "@loop" = true
    ∧ hasKey (mergeLocals [("a", 0x8000), ("b", 0x8002)]
        [("a", [("@loop", 0x8000)]), ("b", [("@loop", 0x8002)])]) "@b_loop"
      = true := by
  have h := claim_C10 testOpcodes ms0 twoScopeProg
    [.v (.num 0xA9), .v (.num 1)]
    [("a", 0x8000), ("b", 0x8002)]
    [("a", [("@loop", 0x8000)]), ("b", [("@loop", 0x8002)])]
    ms0
    { bytecode := [.v (.num 0xA9), .v (.num 1)],
      labels := [("a", 0x8000), ("b", 0x8002), ("@loop", 0x8000), ("@b_loop", 0x8002)],
      mesenLabels := "NesPrgRom:0000:a\nNesPrgRom:0002:b\nNesPrgRom:0000:@loop\nNesPrgRom:0002:@b_loop\n" }
    (by rfl) (by rfl) (by decide)
  refine ⟨by rfl, ?_, ?_, by decide⟩
  · rw [h.2.1 "a" (by decide)]
    decide
  · rcases h.2.2 ("a", [("@loop", 0x8000)]) (by decide) ("@loop", 0x8000)
        (by decide) with hc | hc
    · exact hc
    · exact absurd hc (by decide)
